import Mathlib

/-!
Shallow embedding of parts of the `embxx` library:
* `embxx::comms::protocol::MsgIdLayer` (src/embxx/comms/protocol/MsgIdLayer.h)
* `embxx::container::BasicStaticQueue` (src/embxx/container/StaticQueue.h)

Streams are embedded as lists of byte values (`List Nat`, each element < 256
when produced by the encoders); reading consumes a prefix, writing produces a
list.  Machine sizes (`std::size_t`) are embedded as `Nat`.
-/

namespace Embxx

/-- Modelled from the spec: `ErrorStatus` is the closed enumeration of terminal
outcomes of any layer operation (spec section 7); the defining header
`embxx/comms/ErrorStatus.h` is not under src/.  `BodyFailure` stands for the
generic body-level failure surfaced from the message codec. -/
inductive ErrorStatus where
  | Success
  | NotEnoughData
  | BufferOverflow
  | InvalidMsgId
  | MsgAllocFailure
  | SyncMismatch
  | ChecksumMismatch
  | UpdateRequired
  | BodyFailure
  deriving DecidableEq, Repr

/-- Modelled from the spec: the two endianness traits
`embxx::comms::traits::endian::Big` / `Little` (spec section 6; the traits
header is not under src/). -/
inductive Endian where
  | big
  | little
  deriving DecidableEq, Repr

/-- Modelled from the spec: the `putData` helper of `ProtocolLayer`
("write fixed-width field with stack endianness", spec section 4.1;
`ProtocolLayer.h` is not under src/).  Produces exactly `len` bytes encoding
`v` with the given endianness. -/
def putData (e : Endian) (len : Nat) (v : Nat) : List Nat :=
  match len with
  | 0 => []
  | n + 1 =>
    match e with
    | .big => (v / 256 ^ n % 256) :: putData e n (v % 256 ^ n)
    | .little => (v % 256) :: putData e n (v / 256)

/-- Modelled from the spec: the `getData` helper of `ProtocolLayer`
("read fixed-width field with stack endianness", spec section 4.1;
`ProtocolLayer.h` is not under src/).  Decodes the first `len` bytes of the
stream into a value. -/
def getData (e : Endian) (len : Nat) (buf : List Nat) : Nat :=
  match e with
  | .big => (buf.take len).foldl (fun acc b => acc * 256 + b) 0
  | .little => (buf.take len).foldr (fun b acc => acc * 256 + b) 0

/-!
## MsgIdLayer (src/embxx/comms/protocol/MsgIdLayer.h)

The layer is generic over the message base type `Msg` and the allocator state
type `A`.  A registered factory (class `MsgIdLayer::Factory`) exposes `getId`
and `create(allocator)`; `create` may change the allocator state (e.g. mark an
in-place slot occupied) and may fail by returning `none`.  The next inner
layer is passed as a function: its `read` receives the freshly created message
object, the remaining stream and the remaining size budget, and returns a
status, the (possibly updated) message object and the number of bytes it
consumed; its `write` receives the message and the remaining size budget and
returns a status together with the bytes it emitted.
-/

/-- A registered factory of `MsgIdLayer`: `getId()` and `create(allocator)`
(MsgIdLayer.h lines 180-205). -/
structure Factory (Msg A : Type) where
  getId : Nat
  create : A → Option Msg × A

/-- The state of a `MsgIdLayer` object: the factory registry `factories_` and
the allocator `allocator_` (MsgIdLayer.h lines 209-210). -/
structure MsgIdLayerState (Msg A : Type) where
  factories : List (Factory Msg A)
  alloc : A

/-- Result of `MsgIdLayer::read`: the returned `ErrorStatus`, the out-parameter
`msgPtr`, the layer state after the call (the allocator may have changed) and
the number of bytes consumed from the stream buffer. -/
structure ReadResult (Msg A : Type) where
  status : ErrorStatus
  msgPtr : Option Msg
  state : MsgIdLayerState Msg A
  consumed : Nat

/-- `std::lower_bound(factories_.begin(), factories_.end(), id, ...)` with
comparison `factory->getId() < id` (MsgIdLayer.h lines 296-300): the first
element whose ID is not less than `id`, i.e. the result of the binary search
on the ID-sorted registry.  `std::lower_bound` returns the first element of
the partitioned range for which the comparison is false; this linear
formulation computes exactly that element. -/
def lowerBound {Msg A : Type} (l : List (Factory Msg A)) (id : Nat) :
    Option (Factory Msg A) :=
  match l with
  | [] => none
  | f :: rest => if f.getId < id then lowerBound rest id else some f

/-- Helper of `sortFactories`: insert a factory in front of the first element
whose ID is not smaller. -/
def insertFactory {Msg A : Type} (f : Factory Msg A) :
    List (Factory Msg A) → List (Factory Msg A)
  | [] => [f]
  | g :: rest =>
    if g.getId < f.getId then g :: insertFactory f rest else f :: g :: rest

/-- `std::sort(factories_.begin(), factories_.end(), comp)` with
`comp = factory1->getId() < factory2->getId()` (MsgIdLayer.h lines 264-268).
`std::sort` guarantees a permutation of the input ordered so that no element
compares less than its predecessor (order among equal-ID elements is
unspecified); this insertion sort is a deterministic refinement of that
contract. -/
def sortFactories {Msg A : Type} : List (Factory Msg A) → List (Factory Msg A)
  | [] => []
  | f :: rest => insertFactory f (sortFactories rest)

/-- `MsgIdLayer::MsgIdLayer()` (MsgIdLayer.h lines 257-269): instantiates one
factory per registered message type (in tuple order) and sorts the registry by
ID.  No further check is performed: in particular there is no duplicate-ID
check, and the constructor has no failure channel. -/
def MsgIdLayer.construct {Msg A : Type} (msgFactories : List (Factory Msg A))
    (alloc : A) : MsgIdLayerState Msg A :=
  ⟨sortFactories msgFactories, alloc⟩

/-- `MsgIdLayer::read` (MsgIdLayer.h lines 283-317).  Parameters beyond the
C++ arguments: `e`/`msgIdLen` embed the `Traits` (endianness, `MsgIdLen`),
`release` embeds the effect of `msgPtr.reset()` on the allocator state (the
smart pointer's deleter returns the storage to the allocator), `nextRead`
embeds `Base::nextLayer().read`. -/
def MsgIdLayer.read {Msg A : Type} (e : Endian) (msgIdLen : Nat)
    (release : A → A)
    (nextRead : Msg → List Nat → Nat → ErrorStatus × Msg × Nat)
    (st : MsgIdLayerState Msg A)
    (msgPtr : Option Msg) (buf : List Nat) (size : Nat) : ReadResult Msg A :=
  if size < msgIdLen then
    ⟨.NotEnoughData, msgPtr, st, 0⟩
  else
    let id := getData e msgIdLen buf
    match lowerBound st.factories id with
    | none => ⟨.InvalidMsgId, msgPtr, st, msgIdLen⟩
    | some f =>
      if f.getId ≠ id then ⟨.InvalidMsgId, msgPtr, st, msgIdLen⟩
      else
        match f.create st.alloc with
        | (none, a2) => ⟨.MsgAllocFailure, none, ⟨st.factories, a2⟩, msgIdLen⟩
        | (some m, a2) =>
          let r := nextRead m (buf.drop msgIdLen) (size - msgIdLen)
          if r.1 = .Success then
            ⟨r.1, some r.2.1, ⟨st.factories, a2⟩, msgIdLen + r.2.2⟩
          else
            ⟨r.1, none, ⟨st.factories, release a2⟩, msgIdLen + r.2.2⟩

/-- `MsgIdLayer::write` (MsgIdLayer.h lines 323-342).  The output sink is
embedded as the list of bytes produced; `nextWrite` embeds
`Base::nextLayer().write`. -/
def MsgIdLayer.write {Msg : Type} (e : Endian) (msgIdLen : Nat)
    (nextWrite : Msg → Nat → ErrorStatus × List Nat)
    (getId : Msg → Nat)
    (msg : Msg) (size : Nat) : ErrorStatus × List Nat :=
  if size < msgIdLen then
    (.BufferOverflow, [])
  else
    let r := nextWrite msg (size - msgIdLen)
    (r.1, putData e msgIdLen (getId msg) ++ r.2)

/-!
## A concrete protocol stack

The concrete scenario of spec section 8: a stack
`MsgIdLayer(2-byte big-endian id) -> MsgDataLayer`, with message ID 1 mapped
to a body storing a single big-endian 16-bit value, extended with a second
registered type (ID 2, one-byte body) so that "any registered message type"
ranges over more than one type.  The message classes, `MsgDataLayer` and the
allocators are not under src/ and are modelled from the spec.
-/

/-- Modelled from the spec: the registered custom message types of the
concrete scenario (spec section 8): ID 1 holds a 16-bit big-endian value,
ID 2 holds an 8-bit value. -/
inductive ConcreteMsg where
  | msg1 (val : Nat)
  | msg2 (val : Nat)
  deriving DecidableEq, Repr

/-- `getId()` of the concrete messages. -/
def ConcreteMsg.getId : ConcreteMsg → Nat
  | .msg1 _ => 1
  | .msg2 _ => 2

/-- Serialised body length of the concrete messages. -/
def ConcreteMsg.bodyLen : ConcreteMsg → Nat
  | .msg1 _ => 2
  | .msg2 _ => 1

/-- Valid field values: each field fits its configured width. -/
def ConcreteMsg.valid : ConcreteMsg → Prop
  | .msg1 v => v < 256 ^ 2
  | .msg2 v => v < 256

instance : DecidablePred ConcreteMsg.valid := fun m =>
  match m with
  | .msg1 v => inferInstanceAs (Decidable (v < 256 ^ 2))
  | .msg2 v => inferInstanceAs (Decidable (v < 256))

/-- Modelled from the spec: the body deserialisation of the concrete messages
(spec sections 4.2 and 8): reads the field at its configured width, failing
with `NotEnoughData` when the budget is smaller than the body; on failure the
message object is left unchanged and nothing is consumed. -/
def ConcreteMsg.bodyRead :
    ConcreteMsg → List Nat → Nat → ErrorStatus × ConcreteMsg × Nat
  | .msg1 v, buf, size =>
    if size < 2 then (.NotEnoughData, .msg1 v, 0)
    else (.Success, .msg1 (getData .big 2 buf), 2)
  | .msg2 v, buf, size =>
    if size < 1 then (.NotEnoughData, .msg2 v, 0)
    else (.Success, .msg2 (getData .big 1 buf), 1)

/-- Modelled from the spec: the body serialisation of the concrete messages
(spec sections 4.2 and 8): writes the field at its configured width, failing
with `BufferOverflow` when the budget is smaller than the body. -/
def ConcreteMsg.bodyWrite : ConcreteMsg → Nat → ErrorStatus × List Nat
  | .msg1 v, size =>
    if size < 2 then (.BufferOverflow, []) else (.Success, putData .big 2 v)
  | .msg2 v, size =>
    if size < 1 then (.BufferOverflow, []) else (.Success, putData .big 1 v)

/-- Modelled from the spec: `MsgDataLayer::read` (spec section 4.2;
`MsgDataLayer.h` is not under src/): hands the remaining bytes directly to the
message object's own deserialisation. -/
def MsgDataLayer.read (msg : ConcreteMsg) (buf : List Nat) (size : Nat) :
    ErrorStatus × ConcreteMsg × Nat :=
  msg.bodyRead buf size

/-- Modelled from the spec: `MsgDataLayer::write` (spec section 4.2): invokes
the message's own serialisation. -/
def MsgDataLayer.write (msg : ConcreteMsg) (size : Nat) :
    ErrorStatus × List Nat :=
  msg.bodyWrite size

/-- Modelled from the spec: the in-place allocator (spec section 4.8;
`embxx/util/Allocators.h` is not under src/): a single storage slot; `alloc`
fails when the slot is occupied and marks it occupied otherwise. -/
structure InPlaceAlloc where
  occupied : Bool
  deriving DecidableEq, Repr

/-- `alloc<TObj>()` of the in-place allocator. -/
def InPlaceAlloc.alloc (a : InPlaceAlloc) (m : ConcreteMsg) :
    Option ConcreteMsg × InPlaceAlloc :=
  if a.occupied then (none, a) else (some m, ⟨true⟩)

/-- Releasing the owning handle returns the slot to the allocator
(spec section 4.8). -/
def InPlaceAlloc.free (_ : InPlaceAlloc) : InPlaceAlloc :=
  ⟨false⟩

/-- The registered factory of message type 1 (`MsgFactory<Message1>`):
`createImpl` default-constructs the message through the allocator. -/
def factory1 : Factory ConcreteMsg InPlaceAlloc :=
  ⟨1, fun a => a.alloc (.msg1 0)⟩

/-- The registered factory of message type 2 (`MsgFactory<Message2>`). -/
def factory2 : Factory ConcreteMsg InPlaceAlloc :=
  ⟨2, fun a => a.alloc (.msg2 0)⟩

/-- The concrete `MsgIdLayer` state after construction, with a given
allocator state. -/
def concreteStack (a : InPlaceAlloc) : MsgIdLayerState ConcreteMsg InPlaceAlloc :=
  MsgIdLayer.construct [factory1, factory2] a

/-- `read` of the concrete stack: `MsgIdLayer(2-byte big-endian id)` over
`MsgDataLayer`, with the in-place allocator. -/
def stackRead (a : InPlaceAlloc) (msgPtr : Option ConcreteMsg)
    (buf : List Nat) (size : Nat) : ReadResult ConcreteMsg InPlaceAlloc :=
  MsgIdLayer.read .big 2 InPlaceAlloc.free MsgDataLayer.read
    (concreteStack a) msgPtr buf size

/-- `write` of the concrete stack. -/
def stackWrite (msg : ConcreteMsg) (size : Nat) : ErrorStatus × List Nat :=
  MsgIdLayer.write .big 2 MsgDataLayer.write ConcreteMsg.getId msg size

/-- Two factories sharing ID 5, for the duplicate-ID configuration. -/
def dupFactoryA : Factory ConcreteMsg InPlaceAlloc :=
  ⟨5, fun a => a.alloc (.msg1 0)⟩

/-- A second factory with the same ID 5 but a different message type. -/
def dupFactoryB : Factory ConcreteMsg InPlaceAlloc :=
  ⟨5, fun a => a.alloc (.msg2 0)⟩

/-!
## BasicStaticQueue (src/embxx/container/StaticQueue.h)

The circular buffer state of `BasicStaticQueueBase<T, TSize>`: the raw storage
`array_` (a cell holds `none` where no constructed element lives), the head
index `startIdx_` and the element count `count_`.  `cap` embeds the `TSize`
template parameter.  `operator[](index)` accesses the cell at raw index
`startIdx_ + index` reduced modulo the capacity (StaticQueue.h lines
1408-1419; the source reduces by repeated subtraction, which for
`startIdx_ < capacity()` and `index < capacity()` equals the remainder).
-/

namespace Container

/-- The state of a `BasicStaticQueueBase<T, TSize>` object
(StaticQueue.h lines 718-720 and the storage `array_`). -/
structure BasicStaticQueue (T : Type) (cap : Nat) where
  cells : Nat → Option T
  startIdx : Nat
  count : Nat

variable {T : Type} {cap : Nat}

/-- Raw storage index of logical index `index` (`operator[]`,
StaticQueue.h lines 1408-1419). -/
def BasicStaticQueue.cellIndex (q : BasicStaticQueue T cap) (index : Nat) : Nat :=
  (q.startIdx + index) % cap

/-- `operator[](index)` as the stored cell content. -/
def BasicStaticQueue.get (q : BasicStaticQueue T cap) (index : Nat) : Option T :=
  q.cells (q.cellIndex index)

/-- `size()` (StaticQueue.h lines 1238-1243). -/
abbrev BasicStaticQueue.size (q : BasicStaticQueue T cap) : Nat :=
  q.count

/-- `isEmpty()` (StaticQueue.h lines 1252-1257). -/
abbrev BasicStaticQueue.isEmpty (q : BasicStaticQueue T cap) : Prop :=
  q.count = 0

/-- `isFull()`: `count_ >= capacity()` (StaticQueue.h lines 1266-1271). -/
abbrev BasicStaticQueue.isFull (q : BasicStaticQueue T cap) : Prop :=
  cap ≤ q.count

/-- `back()`: `(*this)[count_ - 1]` (StaticQueue.h lines 1388-1398). -/
def BasicStaticQueue.back (q : BasicStaticQueue T cap) : Option T :=
  q.get (q.count - 1)

/-- `front()`: `(*this)[0]` (StaticQueue.h lines 1366-1371). -/
def BasicStaticQueue.front (q : BasicStaticQueue T cap) : Option T :=
  q.get 0

/-- The abstract content of the queue, front first. -/
def BasicStaticQueue.elems (q : BasicStaticQueue T cap) : List (Option T) :=
  (List.range q.count).map fun i => q.get i

/-- The representation invariant maintained by the queue operations. -/
def BasicStaticQueue.wellFormed (q : BasicStaticQueue T cap) : Prop :=
  q.startIdx < cap ∧ q.count ≤ cap

/-- Overwrite one storage cell. -/
def BasicStaticQueue.setCell (q : BasicStaticQueue T cap) (i : Nat)
    (v : Option T) : BasicStaticQueue T cap :=
  { q with cells := fun j => if j = i then v else q.cells j }

/-- `createValueAtIndex(value, index)` (StaticQueue.h lines 1822-1832):
placement-construction of `value` at `(*this)[index]`. -/
def BasicStaticQueue.createValueAtIndex (q : BasicStaticQueue T cap) (v : T)
    (index : Nat) : BasicStaticQueue T cap :=
  q.setCell (q.cellIndex index) (some v)

/-- `pushBackNotFull(value)` (StaticQueue.h lines 1850-1857): construct at
logical index `size()`, then `++count_`. -/
def BasicStaticQueue.pushBackNotFull (q : BasicStaticQueue T cap) (v : T) :
    BasicStaticQueue T cap :=
  { q.createValueAtIndex v q.count with count := q.count + 1 }

/-- `pushFrontNotFull(value)` (StaticQueue.h lines 1859-1873): construct at
logical index `capacity() - 1`, then move `startIdx_` back (wrapping) and
`++count_`. -/
def BasicStaticQueue.pushFrontNotFull (q : BasicStaticQueue T cap) (v : T) :
    BasicStaticQueue T cap :=
  { q.createValueAtIndex v (cap - 1) with
      startIdx := if q.startIdx = 0 then cap - 1 else q.startIdx - 1,
      count := q.count + 1 }

/-- `popFront()` (StaticQueue.h lines 1321-1340): destroy the front element,
`--count_; ++startIdx_`, resetting `startIdx_` to 0 on wrap or when the queue
became empty; does nothing on an empty queue. -/
def BasicStaticQueue.popFront (q : BasicStaticQueue T cap) :
    BasicStaticQueue T cap :=
  if q.count = 0 then q
  else
    let q1 := q.setCell (q.cellIndex 0) none
    let c2 := q.count - 1
    { q1 with
        count := c2,
        startIdx := if cap ≤ q.startIdx + 1 ∨ c2 = 0 then 0 else q.startIdx + 1 }

/-- `popBack()` (StaticQueue.h lines 1281-1295): destroy the back element and
`--count_`; does nothing on an empty queue. -/
def BasicStaticQueue.popBack (q : BasicStaticQueue T cap) :
    BasicStaticQueue T cap :=
  if q.count = 0 then q
  else
    { q.setCell (q.cellIndex (q.count - 1)) none with count := q.count - 1 }

/-- The overflow behaviour traits `static_queue_traits::IgnoreError` /
`static_queue_traits::Overwrite` (StaticQueue.h lines 41-55). -/
inductive OverflowBehaviour where
  | IgnoreError
  | Overwrite
  deriving DecidableEq, Repr

/-- `BasicStaticQueue::pushBack(value)` (StaticQueue.h lines 2008-2012)
dispatching on `Traits::OverflowBehaviour` to the tag overloads at lines
2074-2087 (IgnoreError: do nothing when full) and lines 2089-2102
(Overwrite: pop the front element first when full). -/
def BasicStaticQueue.pushBack (q : BasicStaticQueue T cap)
    (b : OverflowBehaviour) (v : T) : BasicStaticQueue T cap :=
  match b with
  | .IgnoreError => if q.isFull then q else q.pushBackNotFull v
  | .Overwrite => (if q.isFull then q.popFront else q).pushBackNotFull v

/-- `BasicStaticQueue::pushFront(value)` (StaticQueue.h lines 2034-2038)
dispatching on `Traits::OverflowBehaviour` to the tag overloads at lines
2104-2117 (IgnoreError: do nothing when full) and lines 2119-2132
(Overwrite: pop the back element first when full). -/
def BasicStaticQueue.pushFront (q : BasicStaticQueue T cap)
    (b : OverflowBehaviour) (v : T) : BasicStaticQueue T cap :=
  match b with
  | .IgnoreError => if q.isFull then q else q.pushFrontNotFull v
  | .Overwrite => (if q.isFull then q.popBack else q).pushFrontNotFull v

/-- A concrete full queue of capacity 2 over `Nat`. -/
def fullPairQueue : BasicStaticQueue Nat 2 :=
  ⟨fun j => if j = 0 then some 10 else if j = 1 then some 20 else none, 0, 2⟩

end Container

/-!
## Helper lemmas
-/

theorem putData_length (e : Endian) (len v : Nat) :
    (putData e len v).length = len := by
  induction len generalizing v with
  | zero => cases e <;> simp [putData]
  | succ n ih => cases e <;> simp [putData, ih]

theorem foldl_be_putData (n : Nat) (v a : Nat) (hv : v < 256 ^ n) :
    (putData .big n v).foldl (fun acc b => acc * 256 + b) a = a * 256 ^ n + v := by
  induction n generalizing v a with
  | zero =>
    interval_cases v
    simp [putData]
  | succ n ih =>
    have hdiv : v / 256 ^ n < 256 := by
      have hlt : v < 256 * 256 ^ n := by
        have := hv
        rw [pow_succ] at this
        omega
      exact Nat.div_lt_of_lt_mul (by omega)
    have hmod : v % 256 ^ n < 256 ^ n :=
      Nat.mod_lt _ (Nat.pos_pow_of_pos n (by omega))
    simp only [putData, List.foldl_cons]
    rw [Nat.mod_eq_of_lt hdiv, ih _ _ hmod, Nat.add_mul, Nat.add_assoc,
        Nat.div_add_mod']
    ring

theorem foldr_le_putData (n : Nat) (v : Nat) (hv : v < 256 ^ n) :
    (putData .little n v).foldr (fun b acc => acc * 256 + b) 0 = v := by
  induction n generalizing v with
  | zero =>
    interval_cases v
    simp [putData]
  | succ n ih =>
    have hdiv : v / 256 < 256 ^ n := by
      rw [pow_succ] at hv
      exact Nat.div_lt_of_lt_mul (by omega)
    simp only [putData, List.foldr_cons]
    rw [ih _ hdiv]
    omega

theorem getData_putData (e : Endian) (n : Nat) (v : Nat) (rest : List Nat)
    (hv : v < 256 ^ n) :
    getData e n (putData e n v ++ rest) = v := by
  cases e with
  | big =>
    unfold getData
    rw [List.take_append_of_le_length (by rw [putData_length]),
        List.take_of_length_le (by rw [putData_length])]
    simpa using foldl_be_putData n v 0 hv
  | little =>
    unfold getData
    rw [List.take_append_of_le_length (by rw [putData_length]),
        List.take_of_length_le (by rw [putData_length])]
    exact foldr_le_putData n v hv

theorem lowerBound_mem {Msg A : Type} {l : List (Factory Msg A)} {id : Nat}
    {f : Factory Msg A} (h : lowerBound l id = some f) : f ∈ l := by
  induction l with
  | nil => simp [lowerBound] at h
  | cons g rest ih =>
    by_cases hg : g.getId < id
    · simp only [lowerBound, if_pos hg] at h
      exact List.mem_cons_of_mem _ (ih h)
    · simp only [lowerBound, if_neg hg] at h
      cases h
      exact List.mem_cons_self _ _

theorem lowerBound_eq_of_mem {Msg A : Type} {l : List (Factory Msg A)}
    {id : Nat} {f : Factory Msg A}
    (hsort : l.Pairwise (fun a b => a.getId < b.getId))
    (hmem : f ∈ l) (hid : f.getId = id) : lowerBound l id = some f := by
  induction l with
  | nil => simp at hmem
  | cons g rest ih =>
    rcases List.mem_cons.mp hmem with hfg | hfr
    · subst hfg
      simp [lowerBound, hid]
    · have hg : g.getId < id := by
        have := (List.pairwise_cons.mp hsort).1 f hfr
        omega
      simp only [lowerBound, if_pos hg]
      exact ih (List.pairwise_cons.mp hsort).2 hfr

theorem mem_insertFactory {Msg A : Type} {l : List (Factory Msg A)}
    {f x : Factory Msg A} (hx : x ∈ insertFactory f l) : x = f ∨ x ∈ l := by
  induction l with
  | nil =>
    simp [insertFactory] at hx
    exact Or.inl hx
  | cons y ys ihy =>
    by_cases hy : y.getId < f.getId
    · simp only [insertFactory, if_pos hy, List.mem_cons] at hx
      rcases hx with hx | hx
      · exact Or.inr (by simp [hx])
      · rcases ihy hx with h1 | h1
        · exact Or.inl h1
        · exact Or.inr (List.mem_cons_of_mem _ h1)
    · simp only [insertFactory, if_neg hy, List.mem_cons] at hx
      rcases hx with hx | hx | hx
      · exact Or.inl hx
      · exact Or.inr (by simp [hx])
      · exact Or.inr (List.mem_cons_of_mem _ hx)

theorem insertFactory_pairwise {Msg A : Type} {l : List (Factory Msg A)}
    (f : Factory Msg A)
    (hsort : l.Pairwise (fun a b => a.getId ≤ b.getId)) :
    (insertFactory f l).Pairwise (fun a b => a.getId ≤ b.getId) := by
  induction l with
  | nil => simp [insertFactory]
  | cons g rest ih =>
    rcases List.pairwise_cons.mp hsort with ⟨hg, hrest⟩
    by_cases hlt : g.getId < f.getId
    · simp only [insertFactory, if_pos hlt]
      refine List.pairwise_cons.mpr ⟨?_, ih hrest⟩
      intro x hx
      rcases mem_insertFactory hx with rfl | hx2
      · omega
      · exact hg x hx2
    · simp only [insertFactory, if_neg hlt]
      refine List.pairwise_cons.mpr ⟨?_, hsort⟩
      intro x hx
      rcases List.mem_cons.mp hx with rfl | hx2
      · omega
      · have := hg x hx2
        omega

theorem sortFactories_pairwise {Msg A : Type} (l : List (Factory Msg A)) :
    (sortFactories l).Pairwise (fun a b => a.getId ≤ b.getId) := by
  induction l with
  | nil => simp [sortFactories]
  | cons f rest ih => exact insertFactory_pairwise f ih

theorem msgDataLayer_read_budget (m : ConcreteMsg) (buf : List Nat) (size : Nat) :
    (MsgDataLayer.read m buf size).2.2 ≤ size := by
  cases m <;> simp only [MsgDataLayer.read, ConcreteMsg.bodyRead] <;>
    split <;> simp <;> omega

theorem msgDataLayer_write_budget (m : ConcreteMsg) (size : Nat) :
    ((MsgDataLayer.write m size).2).length ≤ size := by
  cases m <;> simp only [MsgDataLayer.write, ConcreteMsg.bodyWrite] <;>
    split <;> simp [putData_length] <;> omega

theorem concreteStack_factories (a : InPlaceAlloc) :
    (concreteStack a).factories = [factory1, factory2] := rfl

theorem concreteStack_alloc (a : InPlaceAlloc) :
    (concreteStack a).alloc = a := rfl

theorem concreteStack_sorted (a : InPlaceAlloc) :
    (concreteStack a).factories.Pairwise (fun f g => f.getId < g.getId) := by
  rw [concreteStack_factories]
  refine List.pairwise_cons.mpr ⟨?_, List.pairwise_singleton _ _⟩
  intro g hg
  have hg2 := List.mem_singleton.mp hg
  subst hg2
  decide

/-!
## Claim theorems
-/

/-- C1: for every invocation of `MsgIdLayer::read(msgPtr, buf, size)`
satisfying the precondition that `msgPtr` is empty, the returned status is
`Success` if and only if `msgPtr` is non-empty on return; in particular on any
non-Success outcome after the message was allocated, the handle is reset to
empty before returning. -/
theorem msgIdLayer_read_success_iff_nonempty {Msg A : Type} (e : Endian)
    (msgIdLen : Nat) (release : A → A)
    (nextRead : Msg → List Nat → Nat → ErrorStatus × Msg × Nat)
    (st : MsgIdLayerState Msg A) (msgPtr : Option Msg) (buf : List Nat)
    (size : Nat) (hpre : msgPtr = none) :
    (MsgIdLayer.read e msgIdLen release nextRead st msgPtr buf size).status =
        .Success ↔
      (MsgIdLayer.read e msgIdLen release nextRead st msgPtr buf size).msgPtr
        ≠ none := by
  subst hpre
  simp only [MsgIdLayer.read]
  split
  · simp
  · split
    · simp
    · split
      · simp
      · split
        · simp
        · split <;> simp_all

theorem msgIdLayer_read_success_iff_nonempty_witness :
    (none : Option ConcreteMsg) = none ∧
      ((MsgIdLayer.read .big 2 InPlaceAlloc.free MsgDataLayer.read
          (concreteStack ⟨false⟩) none [0, 1, 2, 3] 4).status = .Success ↔
        (MsgIdLayer.read .big 2 InPlaceAlloc.free MsgDataLayer.read
          (concreteStack ⟨false⟩) none [0, 1, 2, 3] 4).msgPtr ≠ none) :=
  ⟨rfl, msgIdLayer_read_success_iff_nonempty .big 2 InPlaceAlloc.free
      MsgDataLayer.read (concreteStack ⟨false⟩) none [0, 1, 2, 3] 4 rfl⟩

/-- C2: on a registry sorted strictly by ID and a sufficient budget, `read`
selects (via the `lower_bound` search) exactly the factory registered for the
ID decoded from the front of the buffer and delegates to the next layer with
the message that factory allocated; for an ID with no registered factory it
returns `InvalidMsgId` and leaves the output handle empty. -/
theorem msgIdLayer_read_id_lookup {Msg A : Type} (e : Endian) (msgIdLen : Nat)
    (release : A → A)
    (nextRead : Msg → List Nat → Nat → ErrorStatus × Msg × Nat)
    (st : MsgIdLayerState Msg A) (msgPtr : Option Msg) (buf : List Nat)
    (size : Nat)
    (hsort : st.factories.Pairwise (fun a b => a.getId < b.getId))
    (hsz : msgIdLen ≤ size) (hpre : msgPtr = none) :
    (∀ f, f ∈ st.factories → f.getId = getData e msgIdLen buf →
      lowerBound st.factories (getData e msgIdLen buf) = some f ∧
      ∀ m a2, f.create st.alloc = (some m, a2) →
        (MsgIdLayer.read e msgIdLen release nextRead st msgPtr buf size).status =
          (nextRead m (buf.drop msgIdLen) (size - msgIdLen)).1 ∧
        ((nextRead m (buf.drop msgIdLen) (size - msgIdLen)).1 = .Success →
          (MsgIdLayer.read e msgIdLen release nextRead st msgPtr buf
              size).msgPtr =
            some (nextRead m (buf.drop msgIdLen) (size - msgIdLen)).2.1)) ∧
    ((∀ f, f ∈ st.factories → f.getId ≠ getData e msgIdLen buf) →
      MsgIdLayer.read e msgIdLen release nextRead st msgPtr buf size =
        ⟨.InvalidMsgId, none, st, msgIdLen⟩) := by
  subst hpre
  have hns : ¬ size < msgIdLen := not_lt.mpr hsz
  constructor
  · intro f hmem hid
    have hlb := lowerBound_eq_of_mem hsort hmem hid
    refine ⟨hlb, ?_⟩
    intro m a2 hcr
    by_cases hrs : (nextRead m (buf.drop msgIdLen) (size - msgIdLen)).1 = .Success
    · simp [MsgIdLayer.read, hns, hlb, hcr, hid, hrs]
    · simp [MsgIdLayer.read, hns, hlb, hcr, hid, hrs]
  · intro hall
    cases hlb : lowerBound st.factories (getData e msgIdLen buf) with
    | none => simp [MsgIdLayer.read, hns, hlb]
    | some f =>
      have hne := hall f (lowerBound_mem hlb)
      simp [MsgIdLayer.read, hns, hlb, hne]

theorem msgIdLayer_read_id_lookup_witness :
    ((concreteStack ⟨false⟩).factories.Pairwise
        (fun a b => a.getId < b.getId) ∧
      (2 : Nat) ≤ 4 ∧ (none : Option ConcreteMsg) = none) ∧
    ((∀ f, f ∈ (concreteStack ⟨false⟩).factories →
        f.getId = getData .big 2 [0, 1, 2, 3] →
        lowerBound (concreteStack ⟨false⟩).factories
            (getData .big 2 [0, 1, 2, 3]) = some f ∧
        ∀ m a2, f.create (concreteStack ⟨false⟩).alloc = (some m, a2) →
          (MsgIdLayer.read .big 2 InPlaceAlloc.free MsgDataLayer.read
              (concreteStack ⟨false⟩) none [0, 1, 2, 3] 4).status =
            (MsgDataLayer.read m ([0, 1, 2, 3].drop 2) (4 - 2)).1 ∧
          ((MsgDataLayer.read m ([0, 1, 2, 3].drop 2) (4 - 2)).1 = .Success →
            (MsgIdLayer.read .big 2 InPlaceAlloc.free MsgDataLayer.read
                (concreteStack ⟨false⟩) none [0, 1, 2, 3] 4).msgPtr =
              some (MsgDataLayer.read m ([0, 1, 2, 3].drop 2) (4 - 2)).2.1)) ∧
      ((∀ f, f ∈ (concreteStack ⟨false⟩).factories →
          f.getId ≠ getData .big 2 [0, 1, 2, 3]) →
        MsgIdLayer.read .big 2 InPlaceAlloc.free MsgDataLayer.read
            (concreteStack ⟨false⟩) none [0, 1, 2, 3] 4 =
          ⟨.InvalidMsgId, none, concreteStack ⟨false⟩, 2⟩)) :=
  ⟨⟨concreteStack_sorted ⟨false⟩, by decide, rfl⟩,
    msgIdLayer_read_id_lookup .big 2 InPlaceAlloc.free MsgDataLayer.read
      (concreteStack ⟨false⟩) none [0, 1, 2, 3] 4
      (concreteStack_sorted ⟨false⟩) (by decide) rfl⟩

/-- C4: a `read` call with `size` strictly smaller than the configured ID
field width returns `NotEnoughData` without allocating (the layer state is
unchanged), without consuming any bytes, and without invoking the next layer
(the result is the same for every next layer). -/
theorem msgIdLayer_read_notEnoughData {Msg A : Type} (e : Endian)
    (msgIdLen : Nat) (release : A → A) (st : MsgIdLayerState Msg A)
    (msgPtr : Option Msg) (buf : List Nat) (size : Nat)
    (h : size < msgIdLen) :
    ∀ nextRead,
      MsgIdLayer.read e msgIdLen release nextRead st msgPtr buf size =
        ⟨.NotEnoughData, msgPtr, st, 0⟩ := by
  intro nextRead
  unfold MsgIdLayer.read
  rw [if_pos h]

theorem msgIdLayer_read_notEnoughData_witness :
    (1 : Nat) < 2 ∧
      MsgIdLayer.read .big 2 InPlaceAlloc.free MsgDataLayer.read
          (concreteStack ⟨false⟩) none [7] 1 =
        ⟨.NotEnoughData, none, concreteStack ⟨false⟩, 0⟩ :=
  ⟨by decide, msgIdLayer_read_notEnoughData .big 2 InPlaceAlloc.free
      (concreteStack ⟨false⟩) none [7] 1 (by decide) MsgDataLayer.read⟩

/-- C6: `write` with `size` smaller than the ID field width returns
`BufferOverflow` without writing anything; otherwise it writes the message ID
encoded at the configured width and endianness at the front of the output,
delegates to the next layer with budget `size - MsgIdLen`, and forwards the
next layer's status. -/
theorem msgIdLayer_write_spec {Msg : Type} (e : Endian) (msgIdLen : Nat)
    (nextWrite : Msg → Nat → ErrorStatus × List Nat) (getIdFn : Msg → Nat)
    (msg : Msg) (size : Nat) :
    (size < msgIdLen →
      MsgIdLayer.write e msgIdLen nextWrite getIdFn msg size =
        (.BufferOverflow, [])) ∧
    (msgIdLen ≤ size →
      (MsgIdLayer.write e msgIdLen nextWrite getIdFn msg size).1 =
          (nextWrite msg (size - msgIdLen)).1 ∧
      (MsgIdLayer.write e msgIdLen nextWrite getIdFn msg size).2 =
          putData e msgIdLen (getIdFn msg) ++
            (nextWrite msg (size - msgIdLen)).2 ∧
      (getIdFn msg < 256 ^ msgIdLen →
        getData e msgIdLen
            (MsgIdLayer.write e msgIdLen nextWrite getIdFn msg size).2 =
          getIdFn msg)) := by
  constructor
  · intro h
    unfold MsgIdLayer.write
    rw [if_pos h]
  · intro h
    have hns : ¬ size < msgIdLen := not_lt.mpr h
    refine ⟨by simp [MsgIdLayer.write, hns], by simp [MsgIdLayer.write, hns],
      ?_⟩
    intro hid
    simp only [MsgIdLayer.write, if_neg hns]
    exact getData_putData e msgIdLen (getIdFn msg) _ hid

theorem msgIdLayer_write_spec_witness :
    ((2 : Nat) < 2 →
      MsgIdLayer.write .big 2 MsgDataLayer.write ConcreteMsg.getId
          (.msg1 515) 2 = (.BufferOverflow, [])) ∧
    ((2 : Nat) ≤ 2 →
      (MsgIdLayer.write .big 2 MsgDataLayer.write ConcreteMsg.getId
          (.msg1 515) 2).1 =
        (MsgDataLayer.write (.msg1 515) (2 - 2)).1 ∧
      (MsgIdLayer.write .big 2 MsgDataLayer.write ConcreteMsg.getId
          (.msg1 515) 2).2 =
        putData .big 2 (ConcreteMsg.getId (.msg1 515)) ++
          (MsgDataLayer.write (.msg1 515) (2 - 2)).2 ∧
      (ConcreteMsg.getId (.msg1 515) < 256 ^ 2 →
        getData .big 2
            (MsgIdLayer.write .big 2 MsgDataLayer.write ConcreteMsg.getId
              (.msg1 515) 2).2 =
          ConcreteMsg.getId (.msg1 515))) :=
  msgIdLayer_write_spec .big 2 MsgDataLayer.write ConcreteMsg.getId
    (.msg1 515) 2

/-- C8: assuming the next layer stays within the budget it is given, a `read`
consumes at most `size` bytes and a `write` emits at most `size` bytes; when
the write delegates, it emits exactly the ID field width plus whatever the
next layer emits out of the remaining `size - MsgIdLen` bytes. -/
theorem msgIdLayer_budget {Msg A : Type} (e : Endian) (msgIdLen : Nat)
    (release : A → A)
    (nextRead : Msg → List Nat → Nat → ErrorStatus × Msg × Nat)
    (nextWrite : Msg → Nat → ErrorStatus × List Nat) (getIdFn : Msg → Nat)
    (st : MsgIdLayerState Msg A) (msgPtr : Option Msg) (buf : List Nat)
    (msg : Msg) (size : Nat)
    (hnr : ∀ m b s, (nextRead m b s).2.2 ≤ s)
    (hnw : ∀ m s, ((nextWrite m s).2).length ≤ s) :
    (MsgIdLayer.read e msgIdLen release nextRead st msgPtr buf size).consumed
        ≤ size ∧
    ((MsgIdLayer.write e msgIdLen nextWrite getIdFn msg size).2).length
        ≤ size ∧
    (msgIdLen ≤ size →
      ((MsgIdLayer.write e msgIdLen nextWrite getIdFn msg size).2).length =
        msgIdLen + ((nextWrite msg (size - msgIdLen)).2).length) := by
  refine ⟨?_, ?_, ?_⟩
  · simp only [MsgIdLayer.read]
    split
    · simp
    · rename_i hns
      split
      · simp
        omega
      · split
        · simp
          omega
        · split
          · simp
            omega
          · rename_i m a2 heq
            have hc := hnr m (buf.drop msgIdLen) (size - msgIdLen)
            split <;> simp <;> omega
  · simp only [MsgIdLayer.write]
    split
    · simp
    · rename_i hns
      have hw := hnw msg (size - msgIdLen)
      simp [putData_length]
      omega
  · intro h
    have hns : ¬ size < msgIdLen := not_lt.mpr h
    simp [MsgIdLayer.write, hns, putData_length]

/-- C3: for any registered message type and any valid field values, `write`
of the message followed by `read` over the bytes it produced returns
`Success`, yields a message equal to the original, and `read` consumes
exactly the number of bytes `write` produced. -/
theorem stack_roundtrip (m : ConcreteMsg) (hm : m.valid) (size : Nat)
    (hsz : 2 + m.bodyLen ≤ size) :
    (stackWrite m size).1 = .Success ∧
    (stackRead ⟨false⟩ none (stackWrite m size).2
        ((stackWrite m size).2).length).status = .Success ∧
    (stackRead ⟨false⟩ none (stackWrite m size).2
        ((stackWrite m size).2).length).msgPtr = some m ∧
    (stackRead ⟨false⟩ none (stackWrite m size).2
        ((stackWrite m size).2).length).consumed =
      ((stackWrite m size).2).length := by
  cases m with
  | msg1 v =>
    have hv : v < 256 ^ 2 := hm
    have h1 : ¬ size < 2 := by
      simp only [ConcreteMsg.bodyLen] at hsz
      omega
    have h2 : ¬ size - 2 < 2 := by
      simp only [ConcreteMsg.bodyLen] at hsz
      omega
    have hw : stackWrite (.msg1 v) size =
        (.Success, putData .big 2 1 ++ putData .big 2 v) := by
      simp [stackWrite, MsgIdLayer.write, MsgDataLayer.write,
        ConcreteMsg.bodyWrite, ConcreteMsg.getId, h1, h2]
    rw [hw]
    have hlen : (putData .big 2 1 ++ putData .big 2 v).length = 4 := by
      simp [putData_length]
    have hid : getData .big 2 (putData .big 2 1 ++ putData .big 2 v) = 1 :=
      getData_putData .big 2 1 _ (by norm_num)
    have hdrop : (putData .big 2 1 ++ putData .big 2 v).drop 2 =
        putData .big 2 v := by
      have h := List.drop_left (putData .big 2 1) (putData .big 2 v)
      rwa [putData_length] at h
    have hbody : getData .big 2 (putData .big 2 v) = v := by
      have h := getData_putData .big 2 v [] hv
      simpa using h
    refine ⟨rfl, ?_, ?_, ?_⟩ <;>
      simp [stackRead, MsgIdLayer.read, hlen, hid, hdrop, hbody,
        concreteStack_factories, concreteStack_alloc, lowerBound,
        factory1, factory2, InPlaceAlloc.alloc, MsgDataLayer.read,
        ConcreteMsg.bodyRead]
  | msg2 v =>
    have hv : v < 256 ^ 1 := by
      have : v < 256 := hm
      simpa using this
    have h1 : ¬ size < 2 := by
      simp only [ConcreteMsg.bodyLen] at hsz
      omega
    have h2 : ¬ size - 2 < 1 := by
      simp only [ConcreteMsg.bodyLen] at hsz
      omega
    have hw : stackWrite (.msg2 v) size =
        (.Success, putData .big 2 2 ++ putData .big 1 v) := by
      simp [stackWrite, MsgIdLayer.write, MsgDataLayer.write,
        ConcreteMsg.bodyWrite, ConcreteMsg.getId, h1, h2]
    rw [hw]
    have hlen : (putData .big 2 2 ++ putData .big 1 v).length = 3 := by
      simp [putData_length]
    have hid : getData .big 2 (putData .big 2 2 ++ putData .big 1 v) = 2 :=
      getData_putData .big 2 2 _ (by norm_num)
    have hdrop : (putData .big 2 2 ++ putData .big 1 v).drop 2 =
        putData .big 1 v := by
      have h := List.drop_left (putData .big 2 2) (putData .big 1 v)
      rwa [putData_length] at h
    have hbody : getData .big 1 (putData .big 1 v) = v := by
      have h := getData_putData .big 1 v [] hv
      simpa using h
    refine ⟨rfl, ?_, ?_, ?_⟩ <;>
      simp [stackRead, MsgIdLayer.read, hlen, hid, hdrop, hbody,
        concreteStack_factories, concreteStack_alloc, lowerBound,
        factory1, factory2, InPlaceAlloc.alloc, MsgDataLayer.read,
        ConcreteMsg.bodyRead]

theorem stack_roundtrip_witness :
    ((ConcreteMsg.msg1 515).valid ∧
      2 + (ConcreteMsg.msg1 515).bodyLen ≤ 4) ∧
    ((stackWrite (.msg1 515) 4).1 = .Success ∧
      (stackRead ⟨false⟩ none (stackWrite (.msg1 515) 4).2
          ((stackWrite (.msg1 515) 4).2).length).status = .Success ∧
      (stackRead ⟨false⟩ none (stackWrite (.msg1 515) 4).2
          ((stackWrite (.msg1 515) 4).2).length).msgPtr =
        some (.msg1 515) ∧
      (stackRead ⟨false⟩ none (stackWrite (.msg1 515) 4).2
          ((stackWrite (.msg1 515) 4).2).length).consumed =
        ((stackWrite (.msg1 515) 4).2).length) :=
  ⟨⟨by decide, by decide⟩, stack_roundtrip (.msg1 515) (by decide) 4 (by decide)⟩

/-- C5: whenever the ID matches a registered factory but the allocator's
`create` returns an empty handle, `read` returns `MsgAllocFailure` and leaves
the output handle empty; on the concrete stack with an in-place allocator
whose slot is occupied the call fails this way, and after the previously
allocated message is released (freeing the slot) the same call succeeds. -/
theorem msgIdLayer_read_allocFailure :
    (∀ (Msg A : Type) (e : Endian) (msgIdLen : Nat) (release : A → A)
        (nextRead : Msg → List Nat → Nat → ErrorStatus × Msg × Nat)
        (st : MsgIdLayerState Msg A) (buf : List Nat) (size : Nat)
        (f : Factory Msg A) (a2 : A),
      st.factories.Pairwise (fun a b => a.getId < b.getId) →
      f ∈ st.factories → f.getId = getData e msgIdLen buf →
      msgIdLen ≤ size →
      f.create st.alloc = (none, a2) →
      MsgIdLayer.read e msgIdLen release nextRead st none buf size =
        ⟨.MsgAllocFailure, none, ⟨st.factories, a2⟩, msgIdLen⟩) ∧
    ((stackRead ⟨true⟩ none [0, 1, 2, 3] 4).status = .MsgAllocFailure ∧
      (stackRead ⟨true⟩ none [0, 1, 2, 3] 4).msgPtr = none ∧
      (stackRead ((⟨true⟩ : InPlaceAlloc).free) none [0, 1, 2, 3] 4).status =
        .Success ∧
      (stackRead ((⟨true⟩ : InPlaceAlloc).free) none [0, 1, 2, 3] 4).msgPtr ≠
        none) := by
  constructor
  · intro Msg A e msgIdLen release nextRead st buf size f a2 hsort hmem hid
      hsz hcr
    have hns : ¬ size < msgIdLen := not_lt.mpr hsz
    have hlb := lowerBound_eq_of_mem hsort hmem hid
    simp [MsgIdLayer.read, hns, hlb, hcr, hid]
  · refine ⟨by decide, by decide, by decide, by decide⟩

theorem msgIdLayer_read_allocFailure_witness :
    MsgIdLayer.read .big 2 InPlaceAlloc.free MsgDataLayer.read
        (concreteStack ⟨true⟩) none [0, 1, 2, 3] 4 =
      ⟨.MsgAllocFailure, none,
        ⟨(concreteStack ⟨true⟩).factories, ⟨true⟩⟩, 2⟩ :=
  msgIdLayer_read_allocFailure.1 ConcreteMsg InPlaceAlloc .big 2
    InPlaceAlloc.free MsgDataLayer.read (concreteStack ⟨true⟩) [0, 1, 2, 3] 4
    factory1 ⟨true⟩ (concreteStack_sorted ⟨true⟩)
    (by rw [concreteStack_factories]; exact List.mem_cons_self _ _)
    (by decide) (by decide) rfl

/-- C7 counterexample: a configuration with two factories sharing ID 5 is
not rejected at construction: the constructor completes normally (it has no
failure channel) and the resulting registry contains the duplicate ID
twice. -/
theorem msgIdLayer_construct_duplicate_ids :
    ((MsgIdLayer.construct [dupFactoryA, dupFactoryB]
        (⟨false⟩ : InPlaceAlloc)).factories).map Factory.getId = [5, 5] := rfl

/-- C7 amended: after construction the factory registry is sorted in
ascending order of raw numeric ID (non-strictly: duplicate IDs are kept, not
rejected) and `read` never modifies the registry. -/
theorem msgIdLayer_registry_sorted_immutable :
    (∀ (Msg A : Type) (fs : List (Factory Msg A)) (a : A),
      ((MsgIdLayer.construct fs a).factories).Pairwise
        (fun f g => f.getId ≤ g.getId)) ∧
    (∀ (Msg A : Type) (e : Endian) (msgIdLen : Nat) (release : A → A)
        (nextRead : Msg → List Nat → Nat → ErrorStatus × Msg × Nat)
        (st : MsgIdLayerState Msg A) (msgPtr : Option Msg) (buf : List Nat)
        (size : Nat),
      (MsgIdLayer.read e msgIdLen release nextRead st msgPtr buf
          size).state.factories = st.factories) := by
  constructor
  · intro Msg A fs a
    exact sortFactories_pairwise fs
  · intro Msg A e msgIdLen release nextRead st msgPtr buf size
    simp only [MsgIdLayer.read]
    split
    · rfl
    · split
      · rfl
      · split
        · rfl
        · split
          · rfl
          · split <;> rfl

theorem msgIdLayer_budget_witness :
    ((∀ m b s, (MsgDataLayer.read m b s).2.2 ≤ s) ∧
      (∀ m s, ((MsgDataLayer.write m s).2).length ≤ s)) ∧
    ((MsgIdLayer.read .big 2 InPlaceAlloc.free MsgDataLayer.read
        (concreteStack ⟨false⟩) none [0, 1, 2, 3] 4).consumed ≤ 4 ∧
      ((MsgIdLayer.write .big 2 MsgDataLayer.write ConcreteMsg.getId
          (.msg1 515) 4).2).length ≤ 4 ∧
      ((2 : Nat) ≤ 4 →
        ((MsgIdLayer.write .big 2 MsgDataLayer.write ConcreteMsg.getId
            (.msg1 515) 4).2).length =
          2 + ((MsgDataLayer.write (.msg1 515) (4 - 2)).2).length)) :=
  ⟨⟨msgDataLayer_read_budget, msgDataLayer_write_budget⟩,
    msgIdLayer_budget .big 2 InPlaceAlloc.free MsgDataLayer.read
      MsgDataLayer.write ConcreteMsg.getId (concreteStack ⟨false⟩) none
      [0, 1, 2, 3] (.msg1 515) 4 msgDataLayer_read_budget
      msgDataLayer_write_budget⟩


/-!
## StaticQueue lemmas and claims
-/

namespace Container

variable {T : Type} {cap : Nat}

theorem add_mod_ne_self {s k c : Nat} (hs : s < c) (hk0 : 0 < k)
    (hk : k < c) : (s + k) % c ≠ s := by
  intro h
  rcases Nat.lt_or_ge (s + k) c with hlt | hge
  · rw [Nat.mod_eq_of_lt hlt] at h
    omega
  · have h2 : (s + k) % c = s + k - c := by
      rw [Nat.mod_eq_sub_mod hge, Nat.mod_eq_of_lt (by omega)]
    omega

theorem popFront_count (q : BasicStaticQueue T cap) :
    q.popFront.count = q.count - 1 := by
  unfold BasicStaticQueue.popFront
  split <;> simp_all

theorem popBack_count (q : BasicStaticQueue T cap) :
    q.popBack.count = q.count - 1 := by
  unfold BasicStaticQueue.popBack
  split <;> simp_all

theorem pushBackNotFull_count (q : BasicStaticQueue T cap) (v : T) :
    (q.pushBackNotFull v).count = q.count + 1 := rfl

theorem pushFrontNotFull_count (q : BasicStaticQueue T cap) (v : T) :
    (q.pushFrontNotFull v).count = q.count + 1 := rfl

theorem pushBackNotFull_back (q : BasicStaticQueue T cap) (v : T) :
    (q.pushBackNotFull v).back = some v := by
  simp [BasicStaticQueue.pushBackNotFull, BasicStaticQueue.back,
    BasicStaticQueue.get, BasicStaticQueue.createValueAtIndex,
    BasicStaticQueue.setCell, BasicStaticQueue.cellIndex]

theorem popFront_wf (q : BasicStaticQueue T cap) (hwf : q.wellFormed)
    (hcap : 0 < cap) : q.popFront.wellFormed := by
  obtain ⟨hs, hc⟩ := hwf
  unfold BasicStaticQueue.popFront
  split
  · exact ⟨hs, hc⟩
  · refine ⟨?_, by simp; omega⟩
    simp only
    split
    · exact hcap
    · omega

theorem popFront_elems (q : BasicStaticQueue T cap) (hwf : q.wellFormed) :
    q.popFront.elems = q.elems.drop 1 := by
  obtain ⟨hs, hc⟩ := hwf
  by_cases h0 : q.count = 0
  · simp [BasicStaticQueue.popFront, h0, BasicStaticQueue.elems]
  · simp only [BasicStaticQueue.popFront, if_neg h0]
    apply List.ext_getElem
    · simp [BasicStaticQueue.elems]
    · intro i h1 h2
      simp only [BasicStaticQueue.elems, BasicStaticQueue.get,
        BasicStaticQueue.cellIndex, BasicStaticQueue.setCell,
        List.getElem_map, List.getElem_range, List.getElem_drop,
        List.length_map, List.length_range] at h1 h2 ⊢
      have hi : i < q.count - 1 := by simpa using h1
      have hcount : 2 ≤ q.count := by omega
      have hS : (if cap ≤ q.startIdx + 1 ∨ q.count - 1 = 0 then 0
          else q.startIdx + 1) = (q.startIdx + 1) % cap := by
        split
        · rename_i hb
          rcases hb with hb | hb
          · have : q.startIdx + 1 = cap := by omega
            rw [this, Nat.mod_self]
          · omega
        · rename_i hb
          push_neg at hb
          rw [Nat.mod_eq_of_lt (by omega)]
      rw [hS, Nat.mod_add_mod]
      have hne : (q.startIdx + 1 + i) % cap ≠ (q.startIdx + 0) % cap := by
        have e2 : (q.startIdx + 0) % cap = q.startIdx := by
          simp [Nat.mod_eq_of_lt hs]
        rw [e2, Nat.add_assoc]
        exact add_mod_ne_self hs (by omega) (by omega)
      rw [if_neg hne, Nat.add_assoc]

theorem pushBackNotFull_elems (q : BasicStaticQueue T cap) (v : T)
    (hwf : q.wellFormed) (hnf : q.count < cap) :
    (q.pushBackNotFull v).elems = q.elems ++ [some v] := by
  obtain ⟨hs, _⟩ := hwf
  have hcap : 0 < cap := by omega
  apply List.ext_getElem
  · simp [BasicStaticQueue.elems, BasicStaticQueue.pushBackNotFull]
  · intro i h1 h2
    simp only [BasicStaticQueue.elems, BasicStaticQueue.pushBackNotFull,
      BasicStaticQueue.get, BasicStaticQueue.cellIndex,
      BasicStaticQueue.createValueAtIndex, BasicStaticQueue.setCell,
      List.getElem_map, List.getElem_range, List.length_map,
      List.length_range] at h1 h2 ⊢
    have hi : i < q.count + 1 := by simpa using h1
    rcases Nat.lt_or_ge i q.count with hlt | hge
    · rw [List.getElem_append_left (by simpa using hlt)]
      have hne : (q.startIdx + i) % cap ≠ (q.startIdx + q.count) % cap := by
        intro h
        have hx : (q.startIdx + i) % cap < cap := Nat.mod_lt _ hcap
        have hk0 : 0 < q.count - i := by omega
        have hk : q.count - i < cap := by omega
        have hh := add_mod_ne_self hx hk0 hk
        rw [Nat.mod_add_mod] at hh
        have he : q.startIdx + i + (q.count - i) = q.startIdx + q.count := by
          omega
        rw [he] at hh
        exact hh h.symm
      rw [if_neg hne]
      simp [List.getElem_map, List.getElem_range]
    · have hieq : i = q.count := by omega
      subst hieq
      rw [List.getElem_append_right (by simp)]
      simp

/-- C9: with the `IgnoreError` overflow behaviour, `pushBack` and `pushFront`
on a full queue leave the queue completely unchanged. -/
theorem staticQueue_push_ignoreError_full (q : BasicStaticQueue T cap)
    (v w : T) (hfull : q.isFull) :
    q.pushBack .IgnoreError v = q ∧ q.pushFront .IgnoreError w = q := by
  constructor <;>
    simp [BasicStaticQueue.pushBack, BasicStaticQueue.pushFront, hfull]

theorem staticQueue_push_ignoreError_full_witness :
    fullPairQueue.isFull ∧
      (fullPairQueue.pushBack .IgnoreError 7 = fullPairQueue ∧
        fullPairQueue.pushFront .IgnoreError 8 = fullPairQueue) :=
  ⟨by decide, staticQueue_push_ignoreError_full fullPairQueue 7 8 (by decide)⟩

/-- C10: with the `Overwrite` overflow behaviour, `pushBack` on a full queue
pops the front (oldest) element and appends the new one at the back: the size
stays equal to the capacity, the new element is `back()`, the content equals
the old content without its front element plus the new element at the back;
and the size never exceeds the capacity after any push operation. -/
theorem staticQueue_pushBack_overwrite_full (q : BasicStaticQueue T cap)
    (v : T) (hwf : q.wellFormed) (hfull : q.isFull) (hcap : 0 < cap) :
    (q.pushBack .Overwrite v).count = cap ∧
    (q.pushBack .Overwrite v).back = some v ∧
    (q.pushBack .Overwrite v).elems = q.elems.drop 1 ++ [some v] ∧
    (∀ p : BasicStaticQueue T cap, p.wellFormed →
      (p.pushBack .Overwrite v).count ≤ cap ∧
      (p.pushFront .Overwrite v).count ≤ cap) := by
  have hcnt : q.count = cap := by
    obtain ⟨_, hc⟩ := hwf
    omega
  have hpb : q.pushBack .Overwrite v = q.popFront.pushBackNotFull v := by
    simp [BasicStaticQueue.pushBack, hfull]
  refine ⟨?_, ?_, ?_, ?_⟩
  · rw [hpb, pushBackNotFull_count, popFront_count]
    omega
  · rw [hpb]
    exact pushBackNotFull_back _ _
  · rw [hpb, pushBackNotFull_elems _ _ (popFront_wf q hwf hcap)
        (by rw [popFront_count]; omega),
      popFront_elems q hwf]
  · intro p hp
    obtain ⟨_, hpc⟩ := hp
    constructor
    · by_cases hf : p.isFull
      · have : p.count = cap := by omega
        simp only [BasicStaticQueue.pushBack, if_pos hf]
        rw [pushBackNotFull_count, popFront_count]
        omega
      · simp only [BasicStaticQueue.pushBack, if_neg hf]
        rw [pushBackNotFull_count]
        simp only [BasicStaticQueue.isFull] at hf
        omega
    · by_cases hf : p.isFull
      · have : p.count = cap := by omega
        simp only [BasicStaticQueue.pushFront, if_pos hf]
        rw [pushFrontNotFull_count, popBack_count]
        omega
      · simp only [BasicStaticQueue.pushFront, if_neg hf]
        rw [pushFrontNotFull_count]
        simp only [BasicStaticQueue.isFull] at hf
        omega

theorem staticQueue_pushBack_overwrite_full_witness :
    (fullPairQueue.wellFormed ∧ fullPairQueue.isFull ∧ (0 : Nat) < 2) ∧
    ((fullPairQueue.pushBack .Overwrite 99).count = 2 ∧
      (fullPairQueue.pushBack .Overwrite 99).back = some 99 ∧
      (fullPairQueue.pushBack .Overwrite 99).elems =
        fullPairQueue.elems.drop 1 ++ [some 99] ∧
      (∀ p : BasicStaticQueue Nat 2, p.wellFormed →
        (p.pushBack .Overwrite 99).count ≤ 2 ∧
        (p.pushFront .Overwrite 99).count ≤ 2)) :=
  ⟨⟨⟨by decide, by decide⟩, by decide, by decide⟩,
    staticQueue_pushBack_overwrite_full fullPairQueue 99
      ⟨by decide, by decide⟩ (by decide) (by decide)⟩

end Container

end Embxx
